import Mathlib

/-!
Shallow embedding of the SalaryCompare contract (Solidity, FHEVM) and proofs
of the specification claims about it.

Modelling conventions:
- `Address` and `Handle` are natural numbers; FHE ciphertext handles are
  allocated from a fresh-handle counter (`FHE.fromExternal` and `FHE.gt`
  each yield a fresh handle).
- Each external Solidity function is a Lean function on `ContractState`;
  a `require` failure is an `Except.error` carrying the revert reason.
  EVM semantics: a reverted call leaves the state unchanged, which
  `applyOp` reflects by keeping the pre-call state on `.error`.
- `FHE.allow` / `FHE.allowThis` grants are the `aclUser` / `aclThis`
  relations; grants are only ever added.
-/

namespace SalaryCompare

abbrev Address := Nat
abbrev Handle := Nat

/-- Revert reasons, one constructor per distinct `require` in the contract. -/
inductive Revert where
  /-- "You have not submitted a salary yet" (getMySalary, compareSalaries, batchCompareSalaries). -/
  | callerNoSalary
  /-- "The other user has not submitted a salary yet" (compareSalaries). -/
  | otherNoSalary
  /-- "Cannot compare salary with yourself" (compareSalaries). -/
  | selfCompare
  /-- "Comparison already performed between these users" (compareSalaries). -/
  | alreadyPerformed
  /-- "You can only view comparisons you are part of" (getComparisonResult). -/
  | viewUnauthorized
  /-- "Comparison has not been performed yet" (getComparisonResult). -/
  | cmpNotPerformed
  /-- "You must submit a salary first before updating it" (updateSalary). -/
  | mustSubmitFirst
  /-- "Must provide at least one user to compare with" (batchCompareSalaries). -/
  | emptyBatch
  /-- "Cannot compare with more than 10 users at once" (batchCompareSalaries). -/
  | tooManyUsers
  /-- "Duplicate addresses not allowed in batch comparison" (batchCompareSalaries). -/
  | duplicateInBatch
  /-- "One of the other users has not submitted a salary yet" (batchCompareSalaries). -/
  | batchOtherNoSalary
  /-- "Cannot compare with yourself" (batchCompareSalaries). -/
  | batchSelfCompare
  deriving DecidableEq, Repr

/-- Revert reasons the spec groups under the NotFound error class. -/
def Revert.isNotFoundClass : Revert → Bool
  | .callerNoSalary => true
  | .otherNoSalary => true
  | .cmpNotPerformed => true
  | .mustSubmitFirst => true
  | .batchOtherNoSalary => true
  | _ => false

/-- Contract storage plus the FHE access-control list and a fresh-handle counter. -/
structure ContractState where
  /-- mapping(address => euint32) private salaries. -/
  salaries : Address → Handle
  /-- mapping(address => bool) public hasSalary. -/
  hasSalary : Address → Bool
  /-- mapping(address => mapping(address => ebool)) private comparisonResults. -/
  comparisonResults : Address → Address → Handle
  /-- mapping(address => mapping(address => bool)) private comparisonPerformed. -/
  comparisonPerformed : Address → Address → Bool
  /-- FHE.allowThis grants: which handles the contract itself may access. -/
  aclThis : Handle → Bool
  /-- FHE.allow grants: which principals may access which handles. -/
  aclUser : Handle → Address → Bool
  /-- Next fresh ciphertext handle the FHE engine will produce. -/
  nextHandle : Handle

/-- The deployed contract's initial state: empty mappings, no grants. -/
def initState : ContractState where
  salaries := fun _ => 0
  hasSalary := fun _ => false
  comparisonResults := fun _ _ => 0
  comparisonPerformed := fun _ _ => false
  aclThis := fun _ => false
  aclUser := fun _ _ => false
  nextHandle := 1

/-- string public constant VERSION = "1.0.0". -/
def VERSION : String := "1.0.0"

/-- uint256 private constant MAX_BATCH_SIZE = 10. -/
def MAX_BATCH_SIZE : Nat := 10

/-- getContractInfo: returns the version and placeholder counts (the body sets
userCount and comparisonCount to literal 0 and returns them unchanged). -/
def getContractInfo (_s : ContractState) : String × Nat × Nat :=
  let userCount : Nat := 0
  let comparisonCount : Nat := 0
  (VERSION, userCount, comparisonCount)

/-- Shared storage/grant steps of submitSalary and updateSalary: import a fresh
handle, store it under the sender, set the presence flag, grant {this, sender}. -/
def storeSalary (sender : Address) (s : ContractState) : ContractState :=
  let h := s.nextHandle
  { s with
    nextHandle := h + 1
    salaries := fun a => if a = sender then h else s.salaries a
    hasSalary := fun a => if a = sender then true else s.hasSalary a
    aclThis := fun x => if x = h then true else s.aclThis x
    aclUser := fun x g => if x = h ∧ g = sender then true else s.aclUser x g }

/-- submitSalary: no preconditions; stores the validated handle and grants access. -/
def submitSalary (sender : Address) (s : ContractState) : ContractState :=
  storeSalary sender s

/-- getMySalary: requires the caller to have a salary, returns its handle. -/
def getMySalary (sender : Address) (s : ContractState) : Except Revert Handle :=
  if s.hasSalary sender = false then .error .callerNoSalary
  else .ok (s.salaries sender)

/-- updateSalary: requires a prior submission, then performs the same
storage/grant steps as submitSalary. -/
def updateSalary (sender : Address) (s : ContractState) : Except Revert ContractState :=
  if s.hasSalary sender = false then .error .mustSubmitFirst
  else .ok (storeSalary sender s)

/-- Record/grant steps shared by compareSalaries and the batch loop body:
FHE.gt yields a fresh result handle, stored under the ordered pair
(sender, other) with the performed flag set, granted to {this, sender, other}. -/
def recordComparison (sender other : Address) (s : ContractState) : ContractState :=
  let h := s.nextHandle
  { s with
    nextHandle := h + 1
    comparisonResults := fun a b => if a = sender ∧ b = other then h else s.comparisonResults a b
    comparisonPerformed := fun a b => if a = sender ∧ b = other then true else s.comparisonPerformed a b
    aclThis := fun x => if x = h then true else s.aclThis x
    aclUser := fun x g => if x = h ∧ (g = sender ∨ g = other) then true else s.aclUser x g }

/-- compareSalaries: self-check, presence checks, already-performed check, then
record the comparison for the ordered pair (sender, other). -/
def compareSalaries (sender other : Address) (s : ContractState) : Except Revert ContractState :=
  if sender = other then .error .selfCompare
  else if s.hasSalary sender = false then .error .callerNoSalary
  else if s.hasSalary other = false then .error .otherNoSalary
  else if s.comparisonPerformed sender other = true then .error .alreadyPerformed
  else .ok (recordComparison sender other s)

/-- getComparisonResult: viewer must be one of the two users; the record for
the exact ordered pair (user1, user2) must exist. -/
def getComparisonResult (viewer user1 user2 : Address) (s : ContractState) :
    Except Revert Handle :=
  if ¬(viewer = user1 ∨ viewer = user2) then .error .viewUnauthorized
  else if s.comparisonPerformed user1 user2 = false then .error .cmpNotPerformed
  else .ok (s.comparisonResults user1 user2)

/-- hasComparison: pure existence check on the ordered pair. -/
def hasComparison (user1 user2 : Address) (s : ContractState) : Bool :=
  s.comparisonPerformed user1 user2

/-- Body of the batchCompareSalaries loop. `seen` holds the previously-seen
entries of the batch (otherUsers[0..i-1]), in order. For each entry: presence
check, self check, skip if the comparison was already performed, duplicate
scan over previously-seen entries, then the record/grant steps. -/
def batchLoop (sender : Address) : List Address → List Address → ContractState →
    Except Revert ContractState
  | [], _, s => .ok s
  | other :: rest, seen, s =>
    if s.hasSalary other = false then .error .batchOtherNoSalary
    else if sender = other then .error .batchSelfCompare
    else if s.comparisonPerformed sender other = true then
      batchLoop sender rest (seen ++ [other]) s
    else if other ∈ seen then .error .duplicateInBatch
    else batchLoop sender rest (seen ++ [other]) (recordComparison sender other s)

/-- batchCompareSalaries: caller-presence check, then size checks, then the loop. -/
def batchCompareSalaries (sender : Address) (others : List Address)
    (s : ContractState) : Except Revert ContractState :=
  if s.hasSalary sender = false then .error .callerNoSalary
  else if others.length = 0 then .error .emptyBatch
  else if others.length > MAX_BATCH_SIZE then .error .tooManyUsers
  else batchLoop sender others [] s

/-- External calls into the contract, one constructor per external function. -/
inductive Op where
  | submit (sender : Address)
  | update (sender : Address)
  | compare (sender other : Address)
  | batch (sender : Address) (others : List Address)
  | viewMySalary (sender : Address)
  | viewComparison (viewer user1 user2 : Address)
  | viewHasComparison (user1 user2 : Address)
  | viewInfo
  deriving DecidableEq, Repr

/-- Transaction semantics of one external call: a successful call commits its
new state; a reverted call leaves the state exactly as before; view functions
never modify state. -/
def applyOp (op : Op) (s : ContractState) : ContractState :=
  match op with
  | .submit a => submitSalary a s
  | .update a =>
    match updateSalary a s with
    | .ok s' => s'
    | .error _ => s
  | .compare a b =>
    match compareSalaries a b s with
    | .ok s' => s'
    | .error _ => s
  | .batch a os =>
    match batchCompareSalaries a os s with
    | .ok s' => s'
    | .error _ => s
  | .viewMySalary _ => s
  | .viewComparison _ _ _ => s
  | .viewHasComparison _ _ => s
  | .viewInfo => s

/-- Run a sequence of external calls in order. -/
def run : List Op → ContractState → ContractState
  | [], s => s
  | op :: ops, s => run ops (applyOp op s)

/-- Example state: principals 0, 1 and 2 have submitted salaries; 3 has not. -/
def exState : ContractState :=
  submitSalary 2 (submitSalary 1 (submitSalary 0 initState))

/-- Example state: after `exState`, principal 0 compared with principal 1. -/
def cmpState : ContractState :=
  applyOp (.compare 0 1) exState

/-- Example state: principals 0 through 10 have all submitted salaries. -/
def manyState : ContractState :=
  (List.range 11).foldl (fun s i => submitSalary i s) initState

/-- Grant invariant of the spec: every stored salary handle is accessible to the
contract and its owner, and every stored comparison result handle is accessible
to the contract, the requester and the target. -/
def GrantInvariant (s : ContractState) : Prop :=
  (∀ a, s.hasSalary a = true →
    s.aclThis (s.salaries a) = true ∧ s.aclUser (s.salaries a) a = true)
  ∧ (∀ a b, s.comparisonPerformed a b = true →
    s.aclThis (s.comparisonResults a b) = true
    ∧ s.aclUser (s.comparisonResults a b) a = true
    ∧ s.aclUser (s.comparisonResults a b) b = true)

/-- Chain of comparison recordings made by one batch call: each step records
the ordered pair (sender, other) for a target drawn from `allowed`, under the
guards the loop body checks. A successful batchCompareSalaries run induces
such a chain from its pre-state to its post-state. -/
inductive RecordChain (sender : Address) (allowed : List Address) :
    ContractState → ContractState → Prop where
  | refl (s : ContractState) : RecordChain sender allowed s s
  | step (s s' : ContractState) (other : Address) (hmem : other ∈ allowed)
      (hns : sender ≠ other) (hho : s.hasSalary other = true)
      (hnp : s.comparisonPerformed sender other = false)
      (hrest : RecordChain sender allowed (recordComparison sender other s) s') :
      RecordChain sender allowed s s'

end SalaryCompare

namespace SalaryCompare

lemma recordComparison_hasSalary (x y : Address) (s : ContractState) :
    (recordComparison x y s).hasSalary = s.hasSalary := rfl

lemma recordComparison_salaries (x y : Address) (s : ContractState) :
    (recordComparison x y s).salaries = s.salaries := rfl

lemma storeSalary_comparisonPerformed (x : Address) (s : ContractState) :
    (storeSalary x s).comparisonPerformed = s.comparisonPerformed := rfl

lemma storeSalary_comparisonResults (x : Address) (s : ContractState) :
    (storeSalary x s).comparisonResults = s.comparisonResults := rfl

/-- C5: compareSalaries with caller equal to target fails with the
self-comparison revert in every state, before any value-presence check. -/
theorem compare_self_always_fails (s : ContractState) (a : Address) :
    compareSalaries a a s = .error .selfCompare := by
  simp [compareSalaries]

/-- C10: getContractInfo returns the version string together with hardcoded
zero user and comparison counts in every state, no matter how many salaries
were submitted or comparisons performed. -/
theorem contract_info_placeholders (s : ContractState) :
    getContractInfo s = (VERSION, 0, 0) ∧ VERSION = "1.0.0" :=
  ⟨rfl, rfl⟩

/-- C6: getComparisonResult rejects any viewer outside the pair with the
unauthorized revert even when the record exists, and for an authorized viewer
rejects with the not-performed revert whenever no record exists for the exact
ordered pair (user1, user2): there is no symmetric lookup. -/
theorem get_comparison_auth_and_exact_order (s : ContractState) (v u1 u2 : Address) :
    (v ≠ u1 → v ≠ u2 → getComparisonResult v u1 u2 s = .error .viewUnauthorized)
    ∧ ((v = u1 ∨ v = u2) → s.comparisonPerformed u1 u2 = false →
      getComparisonResult v u1 u2 s = .error .cmpNotPerformed) := by
  constructor
  · intro h1 h2
    simp [getComparisonResult, h1, h2]
  · intro hv hp
    rcases hv with rfl | rfl <;> simp [getComparisonResult, hp]

/-- Witness for C6: in the state where the record (0,1) exists, viewer 2 is
rejected as unauthorized, and viewer 0 querying the reversed pair (1,0) gets
the not-performed revert. -/
theorem get_comparison_auth_and_exact_order_witness :
    getComparisonResult 2 0 1 cmpState = .error .viewUnauthorized
    ∧ getComparisonResult 0 1 0 cmpState = .error .cmpNotPerformed :=
  ⟨(get_comparison_auth_and_exact_order cmpState 2 0 1).1 (by decide) (by decide),
   (get_comparison_auth_and_exact_order cmpState 0 1 0).2 (Or.inr rfl) (by decide)⟩

/-- C4: for distinct registered principals with no prior records either way,
the first compareSalaries call succeeds and creates exactly one record, keyed
by the ordered pair (a, b) and not (b, a); repeating it fails with the
already-performed revert; the reversed call still succeeds with its own record. -/
theorem compare_ordered_pair_lifecycle (s : ContractState) (a b : Address)
    (hab : a ≠ b) (ha : s.hasSalary a = true) (hb : s.hasSalary b = true)
    (hpab : s.comparisonPerformed a b = false)
    (hpba : s.comparisonPerformed b a = false) :
    ∃ s₁, compareSalaries a b s = .ok s₁
      ∧ s₁.comparisonPerformed a b = true
      ∧ (∀ x y, ¬(x = a ∧ y = b) → s₁.comparisonPerformed x y = s.comparisonPerformed x y)
      ∧ s₁.comparisonPerformed b a = false
      ∧ compareSalaries a b s₁ = .error .alreadyPerformed
      ∧ ∃ s₂, compareSalaries b a s₁ = .ok s₂ ∧ s₂.comparisonPerformed b a = true := by
  have hba : ¬(b = a ∧ a = b) := fun h => hab h.2
  refine ⟨recordComparison a b s, ?_, ?_, ?_, ?_, ?_,
    recordComparison b a (recordComparison a b s), ?_, ?_⟩
  · simp [compareSalaries, hab, ha, hb, hpab]
  · simp [recordComparison]
  · intro x y hxy
    simp [recordComparison, hxy]
  · simp [recordComparison, hba, hpba]
    exact fun _ h => hab h
  · simp [compareSalaries, hab, recordComparison, ha, hb]
  · simp [compareSalaries, recordComparison, Ne.symm hab, ha, hb, hba, hpba]
  · simp [recordComparison]

end SalaryCompare

namespace SalaryCompare

/-- Witness for C4 at the concrete state where principals 0, 1, 2 submitted. -/
theorem compare_ordered_pair_lifecycle_witness :
    ∃ s₁, compareSalaries 0 1 exState = .ok s₁
      ∧ s₁.comparisonPerformed 0 1 = true
      ∧ (∀ x y, ¬(x = 0 ∧ y = 1) → s₁.comparisonPerformed x y = exState.comparisonPerformed x y)
      ∧ s₁.comparisonPerformed 1 0 = false
      ∧ compareSalaries 0 1 s₁ = .error .alreadyPerformed
      ∧ ∃ s₂, compareSalaries 1 0 s₁ = .ok s₂ ∧ s₂.comparisonPerformed 1 0 = true :=
  compare_ordered_pair_lifecycle exState 0 1 (by decide) (by decide) (by decide)
    (by decide) (by decide)

/-- Counterexample for C1: with salaries for 0, 1, 2 and none for 3, the batch
[1, 2, 3] from caller 0 reverts with the missing-salary error, and afterwards
hasComparison 0 1 and hasComparison 0 2 are both false: the records created for
the first two entries do not survive the revert, contrary to the claim that
partial progress is retained. -/
theorem batch_no_partial_progress_counterexample :
    batchCompareSalaries 0 [1, 2, 3] exState = .error .batchOtherNoSalary
    ∧ Revert.isNotFoundClass .batchOtherNoSalary = true
    ∧ hasComparison 0 1 (applyOp (.batch 0 [1, 2, 3]) exState) = false
    ∧ hasComparison 0 2 (applyOp (.batch 0 [1, 2, 3]) exState) = false :=
  ⟨rfl, rfl, by decide, by decide⟩

/-- C1 amended: the batch fails with the NotFound-class revert on the entry
without a registered salary, and the `require` revert rolls back the whole
call: the post-call state equals the pre-call state, so no record survives for
the earlier entries; partial progress is not retained. -/
theorem batch_failure_rolls_back (s : ContractState) (a b c d : Address)
    (hab : a ≠ b) (hac : a ≠ c) (hbc : b ≠ c)
    (ha : s.hasSalary a = true) (hb : s.hasSalary b = true)
    (hc : s.hasSalary c = true) (hd : s.hasSalary d = false) :
    batchCompareSalaries a [b, c, d] s = .error .batchOtherNoSalary
    ∧ applyOp (.batch a [b, c, d]) s = s := by
  have hmain : batchCompareSalaries a [b, c, d] s = .error .batchOtherNoSalary := by
    cases hpb : s.comparisonPerformed a b <;>
      cases hpc : s.comparisonPerformed a c <;>
        simp [batchCompareSalaries, MAX_BATCH_SIZE, batchLoop, ha, hb, hc, hd,
          hab, hac, Ne.symm hbc, hpb, hpc, recordComparison]
  exact ⟨hmain, by simp [applyOp, hmain]⟩

/-- Witness for the amended C1 theorem at the concrete scenario. -/
theorem batch_failure_rolls_back_witness :
    batchCompareSalaries 0 [1, 2, 3] exState = .error .batchOtherNoSalary
    ∧ applyOp (.batch 0 [1, 2, 3]) exState = exState :=
  batch_failure_rolls_back exState 0 1 2 3 (by decide) (by decide) (by decide)
    (by decide) (by decide) (by decide) (by decide)

/-- C2 failing input: batchCompareSalaries 0 [1, 1] succeeds instead of
reverting with the duplicate error. The first occurrence creates the (0, 1)
record; the second occurrence is then silently skipped by the
already-performed check, which runs before the duplicate scan, so the
duplicate `require` is never reached. -/
theorem batch_duplicate_silently_skipped :
    batchCompareSalaries 0 [1, 1] exState = .ok (recordComparison 0 1 exState)
    ∧ hasComparison 0 1 (recordComparison 0 1 exState) = true :=
  ⟨rfl, rfl⟩

/-- Counterexample for C3: a caller without a registered salary and an empty
batch gets the missing-salary revert, not the empty-batch revert, because the
caller-presence check runs before the size checks. -/
theorem batch_empty_check_order_counterexample :
    batchCompareSalaries 5 [] exState = .error .callerNoSalary
    ∧ Revert.callerNoSalary ≠ Revert.emptyBatch :=
  ⟨rfl, by decide⟩

lemma batchLoop_ok (sender : Address) (rest : List Address) :
    ∀ (seen : List Address) (s : ContractState), rest.Nodup →
    (∀ x ∈ rest, s.hasSalary x = true ∧ sender ≠ x ∧ x ∉ seen) →
    ∃ s', batchLoop sender rest seen s = .ok s' := by
  induction rest with
  | nil => exact fun seen s _ _ => ⟨s, rfl⟩
  | cons other rest ih =>
    intro seen s hnd h
    obtain ⟨hother, hrest⟩ := List.nodup_cons.mp hnd
    obtain ⟨hho, hso, hns⟩ := h other (List.mem_cons_self other rest)
    have hnext : ∀ x ∈ rest, s.hasSalary x = true ∧ sender ≠ x ∧ x ∉ seen ++ [other] := by
      intro x hx
      obtain ⟨h1, h2, h3⟩ := h x (List.mem_cons_of_mem other hx)
      refine ⟨h1, h2, ?_⟩
      simp only [List.mem_append, List.mem_singleton]
      rintro (hc | rfl)
      · exact h3 hc
      · exact hother hx
    cases hp : s.comparisonPerformed sender other with
    | true =>
      obtain ⟨s', hs'⟩ := ih (seen ++ [other]) s hrest hnext
      exact ⟨s', by simp [batchLoop, hho, hso, hp, hs']⟩
    | false =>
      have hnext' : ∀ x ∈ rest,
          (recordComparison sender other s).hasSalary x = true
          ∧ sender ≠ x ∧ x ∉ seen ++ [other] := by
        intro x hx
        obtain ⟨h1, h2, h3⟩ := hnext x hx
        exact ⟨h1, h2, h3⟩
      obtain ⟨s', hs'⟩ := ih (seen ++ [other]) (recordComparison sender other s) hrest hnext'
      exact ⟨s', by simp [batchLoop, hho, hso, hp, hns, hs']⟩

/-- C3 amended: for a caller that has itself submitted a salary, an empty
batch reverts with the empty-batch error, a batch longer than the cap of 10
reverts with the too-many-users error, and a batch of exactly 10 distinct
registered targets, none equal to the caller and none previously compared,
succeeds. (For a caller without a salary, the caller-presence check fires
first instead.) -/
theorem batch_size_bounds (s : ContractState) (a : Address) (others : List Address)
    (ha : s.hasSalary a = true) :
    (others = [] → batchCompareSalaries a others s = .error .emptyBatch)
    ∧ (others.length > MAX_BATCH_SIZE → batchCompareSalaries a others s = .error .tooManyUsers)
    ∧ (others.length = MAX_BATCH_SIZE → others.Nodup →
      (∀ x ∈ others, s.hasSalary x = true ∧ a ≠ x ∧ s.comparisonPerformed a x = false) →
      ∃ s', batchCompareSalaries a others s = .ok s') := by
  refine ⟨?_, ?_, ?_⟩
  · rintro rfl
    simp [batchCompareSalaries, ha]
  · intro hlen
    have hmb : MAX_BATCH_SIZE = 10 := rfl
    have h0 : others.length ≠ 0 := by omega
    simp [batchCompareSalaries, ha, h0, hlen]
  · intro hlen hnd h
    obtain ⟨s', hs'⟩ := batchLoop_ok a others [] s hnd
      (fun x hx => ⟨(h x hx).1, (h x hx).2.1, by simp⟩)
    have hmb : MAX_BATCH_SIZE = 10 := rfl
    have h0 : others.length ≠ 0 := by omega
    have h10 : ¬others.length > MAX_BATCH_SIZE := by omega
    exact ⟨s', by simp [batchCompareSalaries, ha, h0, h10, hs']⟩

/-- Witness for the amended C3 theorem: caller 0 in the state where 0..10 all
submitted; the empty batch, an 11-entry batch, and a 10-entry batch. -/
theorem batch_size_bounds_witness :
    batchCompareSalaries 0 [] manyState = .error .emptyBatch
    ∧ batchCompareSalaries 0 [1, 2, 3, 4, 5, 6, 7, 8, 9, 10, 11] manyState = .error .tooManyUsers
    ∧ ∃ s', batchCompareSalaries 0 [1, 2, 3, 4, 5, 6, 7, 8, 9, 10] manyState = .ok s' :=
  ⟨(batch_size_bounds manyState 0 [] (by decide)).1 rfl,
   (batch_size_bounds manyState 0 [1, 2, 3, 4, 5, 6, 7, 8, 9, 10, 11] (by decide)).2.1
     (by decide),
   (batch_size_bounds manyState 0 [1, 2, 3, 4, 5, 6, 7, 8, 9, 10] (by decide)).2.2
     (by decide) (by decide) (by decide)⟩

end SalaryCompare

namespace SalaryCompare

lemma recordComparison_performed_self (x y : Address) (s : ContractState) :
    (recordComparison x y s).comparisonPerformed x y = true := by
  simp [recordComparison]

lemma recordComparison_performed_ne (x y A B : Address) (s : ContractState)
    (hne : ¬(A = x ∧ B = y)) :
    (recordComparison x y s).comparisonPerformed A B = s.comparisonPerformed A B := by
  simp [recordComparison, hne]

lemma recordComparison_results_ne (x y A B : Address) (s : ContractState)
    (hne : ¬(A = x ∧ B = y)) :
    (recordComparison x y s).comparisonResults A B = s.comparisonResults A B := by
  simp [recordComparison, hne]

lemma compareSalaries_ok_elim (x y : Address) (s s₁ : ContractState)
    (h : compareSalaries x y s = .ok s₁) :
    x ≠ y ∧ s.hasSalary x = true ∧ s.hasSalary y = true
    ∧ s.comparisonPerformed x y = false ∧ s₁ = recordComparison x y s := by
  unfold compareSalaries at h
  by_cases h1 : x = y
  · rw [if_pos h1] at h; exact absurd h (by simp)
  · rw [if_neg h1] at h
    by_cases h2 : s.hasSalary x = false
    · rw [if_pos h2] at h; exact absurd h (by simp)
    · rw [if_neg h2] at h
      by_cases h3 : s.hasSalary y = false
      · rw [if_pos h3] at h; exact absurd h (by simp)
      · rw [if_neg h3] at h
        by_cases h4 : s.comparisonPerformed x y = true
        · rw [if_pos h4] at h; exact absurd h (by simp)
        · rw [if_neg h4] at h
          exact ⟨h1, by simpa using h2, by simpa using h3, by simpa using h4,
            (Except.ok.inj h).symm⟩

lemma batchLoop_ok_chain (sender : Address) (allowed : List Address)
    (rest : List Address) :
    ∀ (seen : List Address) (s s' : ContractState), rest ⊆ allowed →
    batchLoop sender rest seen s = .ok s' →
    RecordChain sender allowed s s' := by
  induction rest with
  | nil =>
    intro seen s s' _ h
    rw [batchLoop] at h
    rw [Except.ok.inj h]
    exact RecordChain.refl s'
  | cons other rest ih =>
    intro seen s s' hsub h
    have hsub' : rest ⊆ allowed := fun _ hx => hsub (List.mem_cons_of_mem _ hx)
    rw [batchLoop] at h
    by_cases h1 : s.hasSalary other = false
    · rw [if_pos h1] at h; exact absurd h (by simp)
    · rw [if_neg h1] at h
      by_cases h2 : sender = other
      · rw [if_pos h2] at h; exact absurd h (by simp)
      · rw [if_neg h2] at h
        by_cases h3 : s.comparisonPerformed sender other = true
        · rw [if_pos h3] at h
          exact ih _ _ _ hsub' h
        · rw [if_neg h3] at h
          by_cases h4 : other ∈ seen
          · rw [if_pos h4] at h; exact absurd h (by simp)
          · rw [if_neg h4] at h
            exact RecordChain.step s s' other (hsub (List.mem_cons_self _ _)) h2
              (by simpa using h1) (by simpa using h3) (ih _ _ _ hsub' h)

lemma batchCompareSalaries_ok_elim (x : Address) (os : List Address)
    (s s₁ : ContractState) (h : batchCompareSalaries x os s = .ok s₁) :
    s.hasSalary x = true ∧ RecordChain x os s s₁ := by
  unfold batchCompareSalaries at h
  by_cases h1 : s.hasSalary x = false
  · rw [if_pos h1] at h; exact absurd h (by simp)
  · rw [if_neg h1] at h
    by_cases h2 : os.length = 0
    · rw [if_pos h2] at h; exact absurd h (by simp)
    · rw [if_neg h2] at h
      by_cases h3 : os.length > MAX_BATCH_SIZE
      · rw [if_pos h3] at h; exact absurd h (by simp)
      · rw [if_neg h3] at h
        exact ⟨by simpa using h1,
          batchLoop_ok_chain x os os [] s s₁ (List.Subset.refl os) h⟩

lemma RecordChain.hasSalary_eq {sender : Address} {allowed : List Address}
    {s s' : ContractState} (h : RecordChain sender allowed s s') :
    s'.hasSalary = s.hasSalary := by
  induction h with
  | refl _ => rfl
  | step s s' other _ _ _ _ _ ih => exact ih

lemma RecordChain.salaries_eq {sender : Address} {allowed : List Address}
    {s s' : ContractState} (h : RecordChain sender allowed s s') :
    s'.salaries = s.salaries := by
  induction h with
  | refl _ => rfl
  | step s s' other _ _ _ _ _ ih => exact ih

lemma RecordChain.performed_mono {sender : Address} {allowed : List Address}
    {s s' : ContractState} (h : RecordChain sender allowed s s')
    (A B : Address) (hp : s.comparisonPerformed A B = true) :
    s'.comparisonPerformed A B = true
    ∧ s'.comparisonResults A B = s.comparisonResults A B := by
  induction h with
  | refl _ => exact ⟨hp, rfl⟩
  | step s s' other hmem hns hho hnp hrest ih =>
    have hne : ¬(A = sender ∧ B = other) := by
      rintro ⟨rfl, rfl⟩
      rw [hp] at hnp
      cases hnp
    have hp' : (recordComparison sender other s).comparisonPerformed A B = true := by
      rw [recordComparison_performed_ne sender other A B s hne]
      exact hp
    obtain ⟨h1, h2⟩ := ih hp'
    exact ⟨h1, h2.trans (recordComparison_results_ne sender other A B s hne)⟩

lemma RecordChain.new_record {sender : Address} {allowed : List Address}
    {s s' : ContractState} (h : RecordChain sender allowed s s') (A B : Address)
    (h0 : s.comparisonPerformed A B = false)
    (h1 : s'.comparisonPerformed A B = true) :
    sender = A ∧ B ∈ allowed ∧ A ≠ B ∧ s.hasSalary B = true := by
  induction h with
  | refl _ =>
    rw [h0] at h1
    cases h1
  | step s s' other hmem hns hho hnp hrest ih =>
    by_cases hc : A = sender ∧ B = other
    · obtain ⟨rfl, rfl⟩ := hc
      exact ⟨rfl, hmem, hns, hho⟩
    · have h0' : (recordComparison sender other s).comparisonPerformed A B = false := by
        rw [recordComparison_performed_ne sender other A B s hc]
        exact h0
      obtain ⟨ha, hb, hab, hsal⟩ := ih h0' h1
      exact ⟨ha, hb, hab, hsal⟩

lemma RecordChain.aclUser_mono {sender : Address} {allowed : List Address}
    {s s' : ContractState} (h : RecordChain sender allowed s s')
    (x : Handle) (g : Address) (hg : s.aclUser x g = true) :
    s'.aclUser x g = true := by
  induction h with
  | refl _ => exact hg
  | step s s' other _ _ _ _ _ ih =>
    refine ih ?_
    simp only [recordComparison]
    rw [hg]
    simp

lemma RecordChain.aclThis_mono {sender : Address} {allowed : List Address}
    {s s' : ContractState} (h : RecordChain sender allowed s s')
    (x : Handle) (hg : s.aclThis x = true) :
    s'.aclThis x = true := by
  induction h with
  | refl _ => exact hg
  | step s s' other _ _ _ _ _ ih =>
    refine ih ?_
    simp only [recordComparison]
    rw [hg]
    simp

end SalaryCompare

namespace SalaryCompare

lemma updateSalary_ok_elim (x : Address) (s s₁ : ContractState)
    (h : updateSalary x s = .ok s₁) :
    s.hasSalary x = true ∧ s₁ = storeSalary x s := by
  unfold updateSalary at h
  by_cases h1 : s.hasSalary x = false
  · rw [if_pos h1] at h; exact absurd h (by simp)
  · rw [if_neg h1] at h
    exact ⟨by simpa using h1, (Except.ok.inj h).symm⟩

lemma applyOp_hasSalary_mono (op : Op) (s : ContractState) (a : Address)
    (h : s.hasSalary a = true) : (applyOp op s).hasSalary a = true := by
  cases op with
  | submit x => simp [applyOp, submitSalary, storeSalary, h]
  | update x =>
    cases hu : updateSalary x s with
    | error e => simpa [applyOp, hu] using h
    | ok s₁ =>
      obtain ⟨_, rfl⟩ := updateSalary_ok_elim x s s₁ hu
      simp [applyOp, hu, storeSalary, h]
  | compare x y =>
    cases hc : compareSalaries x y s with
    | error e => simpa [applyOp, hc] using h
    | ok s₁ =>
      obtain ⟨_, _, _, _, rfl⟩ := compareSalaries_ok_elim x y s s₁ hc
      simpa [applyOp, hc, recordComparison] using h
  | batch x os =>
    cases hb : batchCompareSalaries x os s with
    | error e => simpa [applyOp, hb] using h
    | ok s₁ =>
      obtain ⟨_, hchain⟩ := batchCompareSalaries_ok_elim x os s s₁ hb
      simp [applyOp, hb, hchain.hasSalary_eq, h]
  | viewMySalary x => exact h
  | viewComparison v u1 u2 => exact h
  | viewHasComparison u1 u2 => exact h
  | viewInfo => exact h

lemma run_hasSalary_mono (ops : List Op) :
    ∀ (s : ContractState) (a : Address), s.hasSalary a = true →
    (run ops s).hasSalary a = true := by
  induction ops with
  | nil => exact fun _ _ h => h
  | cons op ops ih => exact fun s a h => ih _ _ (applyOp_hasSalary_mono op s a h)

/-- C7: value presence is a monotonic one-way flag: right after submitSalary
the caller has a registered value, the flag remains true after every further
sequence of operations of the system, and getMySalary keeps returning the
stored handle. -/
theorem value_presence_monotonic (s : ContractState) (a : Address) (ops : List Op) :
    (submitSalary a s).hasSalary a = true
    ∧ (run ops (submitSalary a s)).hasSalary a = true
    ∧ getMySalary a (run ops (submitSalary a s))
      = .ok ((run ops (submitSalary a s)).salaries a) := by
  have h1 : (submitSalary a s).hasSalary a = true := by
    simp [submitSalary, storeSalary]
  have h2 := run_hasSalary_mono ops (submitSalary a s) a h1
  exact ⟨h1, h2, by simp [getMySalary, h2]⟩

lemma applyOp_performed_mono (op : Op) (s : ContractState) (A B : Address)
    (h : s.comparisonPerformed A B = true) :
    (applyOp op s).comparisonPerformed A B = true
    ∧ (applyOp op s).comparisonResults A B = s.comparisonResults A B := by
  cases op with
  | submit x => exact ⟨h, rfl⟩
  | update x =>
    cases hu : updateSalary x s with
    | error e => simp only [applyOp, hu]; exact ⟨h, by trivial⟩
    | ok s₁ =>
      obtain ⟨_, rfl⟩ := updateSalary_ok_elim x s s₁ hu
      simp only [applyOp, hu]; exact ⟨h, by trivial⟩
  | compare x y =>
    cases hc : compareSalaries x y s with
    | error e => simp only [applyOp, hc]; exact ⟨h, by trivial⟩
    | ok s₁ =>
      obtain ⟨_, _, _, hpxy, rfl⟩ := compareSalaries_ok_elim x y s s₁ hc
      have hne : ¬(A = x ∧ B = y) := by
        rintro ⟨rfl, rfl⟩
        rw [h] at hpxy
        cases hpxy
      simp only [applyOp, hc]
      rw [recordComparison_performed_ne x y A B s hne,
        recordComparison_results_ne x y A B s hne]
      exact ⟨h, rfl⟩
  | batch x os =>
    cases hb : batchCompareSalaries x os s with
    | error e => simp only [applyOp, hb]; exact ⟨h, by trivial⟩
    | ok s₁ =>
      obtain ⟨_, hchain⟩ := batchCompareSalaries_ok_elim x os s s₁ hb
      obtain ⟨h1, h2⟩ := hchain.performed_mono A B h
      simp only [applyOp, hb]
      exact ⟨h1, h2⟩
  | viewMySalary x => exact ⟨h, rfl⟩
  | viewComparison v u1 u2 => exact ⟨h, rfl⟩
  | viewHasComparison u1 u2 => exact ⟨h, rfl⟩
  | viewInfo => exact ⟨h, rfl⟩

lemma run_performed_mono (ops : List Op) :
    ∀ (s : ContractState) (A B : Address), s.comparisonPerformed A B = true →
    (run ops s).comparisonPerformed A B = true
    ∧ (run ops s).comparisonResults A B = s.comparisonResults A B := by
  induction ops with
  | nil => exact fun _ _ _ h => ⟨h, rfl⟩
  | cons op ops ih =>
    intro s A B h
    obtain ⟨h1, h2⟩ := applyOp_performed_mono op s A B h
    obtain ⟨h3, h4⟩ := ih _ A B h1
    exact ⟨h3, h4.trans h2⟩

lemma applyOp_new_record (op : Op) (s : ContractState) (A B : Address)
    (h0 : s.comparisonPerformed A B = false)
    (h1 : (applyOp op s).comparisonPerformed A B = true) :
    A ≠ B ∧ s.hasSalary A = true ∧ s.hasSalary B = true
    ∧ (op = Op.compare A B ∨ ∃ os, op = Op.batch A os ∧ B ∈ os) := by
  cases op with
  | submit x =>
    have : s.comparisonPerformed A B = true := h1
    rw [h0] at this; cases this
  | update x =>
    cases hu : updateSalary x s with
    | error e =>
      simp only [applyOp, hu] at h1
      rw [h0] at h1; cases h1
    | ok s₁ =>
      obtain ⟨_, rfl⟩ := updateSalary_ok_elim x s s₁ hu
      simp only [applyOp, hu] at h1
      have : s.comparisonPerformed A B = true := h1
      rw [h0] at this; cases this
  | compare x y =>
    cases hc : compareSalaries x y s with
    | error e =>
      simp only [applyOp, hc] at h1
      rw [h0] at h1; cases h1
    | ok s₁ =>
      obtain ⟨hxy, hhx, hhy, hpxy, rfl⟩ := compareSalaries_ok_elim x y s s₁ hc
      simp only [applyOp, hc] at h1
      by_cases hX : A = x ∧ B = y
      · obtain ⟨rfl, rfl⟩ := hX
        exact ⟨hxy, hhx, hhy, Or.inl rfl⟩
      · rw [recordComparison_performed_ne x y A B s hX, h0] at h1
        cases h1
  | batch x os =>
    cases hb : batchCompareSalaries x os s with
    | error e =>
      simp only [applyOp, hb] at h1
      rw [h0] at h1; cases h1
    | ok s₁ =>
      obtain ⟨hhx, hchain⟩ := batchCompareSalaries_ok_elim x os s s₁ hb
      simp only [applyOp, hb] at h1
      obtain ⟨rfl, hmem, hab, hB⟩ := hchain.new_record A B h0 h1
      exact ⟨hab, hhx, hB, Or.inr ⟨os, rfl, hmem⟩⟩
  | viewMySalary x =>
    have hch : s.comparisonPerformed A B = true := h1
    rw [h0] at hch; cases hch
  | viewComparison v u1 u2 =>
    have hch : s.comparisonPerformed A B = true := h1
    rw [h0] at hch; cases hch
  | viewHasComparison u1 u2 =>
    have hch : s.comparisonPerformed A B = true := h1
    rw [h0] at hch; cases hch
  | viewInfo =>
    have hch : s.comparisonPerformed A B = true := h1
    rw [h0] at hch; cases hch

/-- C8: the per-ordered-pair comparison record is a one-way state machine:
once the record for (A, B) exists, every single operation and every sequence
of operations keeps it and leaves its stored result handle untouched; and the
only transition from no-record to performed is a successful compareSalaries
for exactly that ordered pair, or a successful batchCompareSalaries by A whose
input contains B, both guarded by distinctness and both values registered. -/
theorem comparison_record_state_machine (s : ContractState) (A B : Address) :
    (∀ op, s.comparisonPerformed A B = true →
      (applyOp op s).comparisonPerformed A B = true
      ∧ (applyOp op s).comparisonResults A B = s.comparisonResults A B)
    ∧ (∀ ops, s.comparisonPerformed A B = true →
      (run ops s).comparisonPerformed A B = true
      ∧ (run ops s).comparisonResults A B = s.comparisonResults A B)
    ∧ (∀ op, s.comparisonPerformed A B = false →
      (applyOp op s).comparisonPerformed A B = true →
      A ≠ B ∧ s.hasSalary A = true ∧ s.hasSalary B = true
      ∧ (op = Op.compare A B ∨ ∃ os, op = Op.batch A os ∧ B ∈ os)) :=
  ⟨fun op h => applyOp_performed_mono op s A B h,
   fun ops h => run_performed_mono ops s A B h,
   fun op h0 h1 => applyOp_new_record op s A B h0 h1⟩

/-- Witness for C8: after compare(0, 1), an update by 0 and a further run keep
the (0, 1) record and its result handle; and from the pre-compare state, the
compare(0, 1) operation is a legitimate transition with all guards. -/
theorem comparison_record_state_machine_witness :
    ((applyOp (.update 0) cmpState).comparisonPerformed 0 1 = true
      ∧ (applyOp (.update 0) cmpState).comparisonResults 0 1
        = cmpState.comparisonResults 0 1)
    ∧ ((run [.update 0, .submit 3] cmpState).comparisonPerformed 0 1 = true
      ∧ (run [.update 0, .submit 3] cmpState).comparisonResults 0 1
        = cmpState.comparisonResults 0 1)
    ∧ ((0 : Address) ≠ 1 ∧ exState.hasSalary 0 = true ∧ exState.hasSalary 1 = true
      ∧ (Op.compare 0 1 = Op.compare 0 1
        ∨ ∃ os, Op.compare 0 1 = Op.batch 0 os ∧ 1 ∈ os)) :=
  ⟨(comparison_record_state_machine cmpState 0 1).1 (.update 0) (by decide),
   (comparison_record_state_machine cmpState 0 1).2.1 [.update 0, .submit 3] (by decide),
   (comparison_record_state_machine exState 0 1).2.2 (.compare 0 1) (by decide) (by decide)⟩

end SalaryCompare

namespace SalaryCompare

lemma storeSalary_aclUser_mono (x : Address) (s : ContractState) (h : Handle)
    (g : Address) (hg : s.aclUser h g = true) :
    (storeSalary x s).aclUser h g = true := by
  simp only [storeSalary]
  rw [hg]
  simp

lemma storeSalary_aclThis_mono (x : Address) (s : ContractState) (h : Handle)
    (hg : s.aclThis h = true) : (storeSalary x s).aclThis h = true := by
  simp only [storeSalary]
  rw [hg]
  simp

lemma recordComparison_aclUser_mono (x y : Address) (s : ContractState)
    (h : Handle) (g : Address) (hg : s.aclUser h g = true) :
    (recordComparison x y s).aclUser h g = true := by
  simp only [recordComparison]
  rw [hg]
  simp

lemma recordComparison_aclThis_mono (x y : Address) (s : ContractState)
    (h : Handle) (hg : s.aclThis h = true) :
    (recordComparison x y s).aclThis h = true := by
  simp only [recordComparison]
  rw [hg]
  simp

lemma applyOp_aclUser_mono (op : Op) (s : ContractState) (x : Handle)
    (g : Address) (hg : s.aclUser x g = true) :
    (applyOp op s).aclUser x g = true := by
  cases op with
  | submit a => exact storeSalary_aclUser_mono a s x g hg
  | update a =>
    cases hu : updateSalary a s with
    | error e => simpa [applyOp, hu] using hg
    | ok s₁ =>
      obtain ⟨_, rfl⟩ := updateSalary_ok_elim a s s₁ hu
      simpa [applyOp, hu] using storeSalary_aclUser_mono a s x g hg
  | compare a b =>
    cases hc : compareSalaries a b s with
    | error e => simpa [applyOp, hc] using hg
    | ok s₁ =>
      obtain ⟨_, _, _, _, rfl⟩ := compareSalaries_ok_elim a b s s₁ hc
      simpa [applyOp, hc] using recordComparison_aclUser_mono a b s x g hg
  | batch a os =>
    cases hb : batchCompareSalaries a os s with
    | error e => simpa [applyOp, hb] using hg
    | ok s₁ =>
      obtain ⟨_, hchain⟩ := batchCompareSalaries_ok_elim a os s s₁ hb
      simpa [applyOp, hb] using hchain.aclUser_mono x g hg
  | viewMySalary a => exact hg
  | viewComparison v u1 u2 => exact hg
  | viewHasComparison u1 u2 => exact hg
  | viewInfo => exact hg

lemma applyOp_aclThis_mono (op : Op) (s : ContractState) (x : Handle)
    (hg : s.aclThis x = true) : (applyOp op s).aclThis x = true := by
  cases op with
  | submit a => exact storeSalary_aclThis_mono a s x hg
  | update a =>
    cases hu : updateSalary a s with
    | error e => simpa [applyOp, hu] using hg
    | ok s₁ =>
      obtain ⟨_, rfl⟩ := updateSalary_ok_elim a s s₁ hu
      simpa [applyOp, hu] using storeSalary_aclThis_mono a s x hg
  | compare a b =>
    cases hc : compareSalaries a b s with
    | error e => simpa [applyOp, hc] using hg
    | ok s₁ =>
      obtain ⟨_, _, _, _, rfl⟩ := compareSalaries_ok_elim a b s s₁ hc
      simpa [applyOp, hc] using recordComparison_aclThis_mono a b s x hg
  | batch a os =>
    cases hb : batchCompareSalaries a os s with
    | error e => simpa [applyOp, hb] using hg
    | ok s₁ =>
      obtain ⟨_, hchain⟩ := batchCompareSalaries_ok_elim a os s s₁ hb
      simpa [applyOp, hb] using hchain.aclThis_mono x hg
  | viewMySalary a => exact hg
  | viewComparison v u1 u2 => exact hg
  | viewHasComparison u1 u2 => exact hg
  | viewInfo => exact hg

lemma storeSalary_grant_invariant (x : Address) (s : ContractState)
    (hI : GrantInvariant s) : GrantInvariant (storeSalary x s) := by
  obtain ⟨hval, hcmp⟩ := hI
  constructor
  · intro a ha
    by_cases hax : a = x
    · subst hax
      constructor
      · simp [storeSalary]
      · simp [storeSalary]
    · have ha' : s.hasSalary a = true := by
        simpa [storeSalary, hax] using ha
      have hsal : (storeSalary x s).salaries a = s.salaries a := by
        simp [storeSalary, hax]
      obtain ⟨h1, h2⟩ := hval a ha'
      rw [hsal]
      exact ⟨storeSalary_aclThis_mono x s _ h1, storeSalary_aclUser_mono x s _ a h2⟩
  · intro a b hab
    have hab' : s.comparisonPerformed a b = true := hab
    obtain ⟨h1, h2, h3⟩ := hcmp a b hab'
    exact ⟨storeSalary_aclThis_mono x s _ h1,
      storeSalary_aclUser_mono x s _ a h2, storeSalary_aclUser_mono x s _ b h3⟩

lemma recordComparison_grant_invariant (x y : Address) (s : ContractState)
    (hI : GrantInvariant s) : GrantInvariant (recordComparison x y s) := by
  obtain ⟨hval, hcmp⟩ := hI
  constructor
  · intro a ha
    have ha' : s.hasSalary a = true := ha
    obtain ⟨h1, h2⟩ := hval a ha'
    exact ⟨recordComparison_aclThis_mono x y s _ h1,
      recordComparison_aclUser_mono x y s _ a h2⟩
  · intro a b hab
    by_cases hc : a = x ∧ b = y
    · obtain ⟨rfl, rfl⟩ := hc
      refine ⟨?_, ?_, ?_⟩ <;> simp [recordComparison]
    · have hab' : s.comparisonPerformed a b = true := by
        rw [recordComparison_performed_ne x y a b s hc] at hab
        exact hab
      obtain ⟨h1, h2, h3⟩ := hcmp a b hab'
      rw [recordComparison_results_ne x y a b s hc]
      exact ⟨recordComparison_aclThis_mono x y s _ h1,
        recordComparison_aclUser_mono x y s _ a h2,
        recordComparison_aclUser_mono x y s _ b h3⟩

lemma RecordChain.grant_invariant {sender : Address} {allowed : List Address}
    {s s' : ContractState} (h : RecordChain sender allowed s s')
    (hI : GrantInvariant s) : GrantInvariant s' := by
  induction h with
  | refl _ => exact hI
  | step s s' other _ _ _ _ _ ih =>
    exact ih (recordComparison_grant_invariant sender other s hI)

lemma applyOp_grant_invariant (op : Op) (s : ContractState)
    (hI : GrantInvariant s) : GrantInvariant (applyOp op s) := by
  cases op with
  | submit a => exact storeSalary_grant_invariant a s hI
  | update a =>
    cases hu : updateSalary a s with
    | error e => simpa [applyOp, hu] using hI
    | ok s₁ =>
      obtain ⟨_, rfl⟩ := updateSalary_ok_elim a s s₁ hu
      simpa [applyOp, hu] using storeSalary_grant_invariant a s hI
  | compare a b =>
    cases hc : compareSalaries a b s with
    | error e => simpa [applyOp, hc] using hI
    | ok s₁ =>
      obtain ⟨_, _, _, _, rfl⟩ := compareSalaries_ok_elim a b s s₁ hc
      simpa [applyOp, hc] using recordComparison_grant_invariant a b s hI
  | batch a os =>
    cases hb : batchCompareSalaries a os s with
    | error e => simpa [applyOp, hb] using hI
    | ok s₁ =>
      obtain ⟨_, hchain⟩ := batchCompareSalaries_ok_elim a os s s₁ hb
      simpa [applyOp, hb] using hchain.grant_invariant hI
  | viewMySalary a => exact hI
  | viewComparison v u1 u2 => exact hI
  | viewHasComparison u1 u2 => exact hI
  | viewInfo => exact hI

lemma initState_grant_invariant : GrantInvariant initState := by
  constructor
  · intro a ha
    simp [initState] at ha
  · intro a b hab
    simp [initState] at hab

lemma run_grant_invariant (ops : List Op) :
    ∀ s, GrantInvariant s → GrantInvariant (run ops s) := by
  induction ops with
  | nil => exact fun _ h => h
  | cons op ops ih => exact fun s h => ih _ (applyOp_grant_invariant op s h)

/-- C9: in every state reachable from the initial state, every stored salary
handle carries grants for at least its owner and the contract itself, and
every stored comparison result handle carries grants for at least the
requester, the target and the contract itself; and no operation ever revokes
an existing grant, whether for a user or for the contract. -/
theorem grants_cover_participants_and_are_additive (ops : List Op) :
    GrantInvariant (run ops initState)
    ∧ (∀ op s x g, s.aclUser x g = true → (applyOp op s).aclUser x g = true)
    ∧ (∀ op s x, s.aclThis x = true → (applyOp op s).aclThis x = true) :=
  ⟨run_grant_invariant ops initState initState_grant_invariant,
   fun op s x g h => applyOp_aclUser_mono op s x g h,
   fun op s x h => applyOp_aclThis_mono op s x h⟩

/-- Witness for C9: after submits by 0, 1, 2 and compare(0, 1), the stored
salary handle of 0 and the result handle of (0, 1) carry the required grants,
and a subsequent update by 0 keeps an existing grant on the result handle. -/
theorem grants_cover_participants_witness :
    (cmpState.aclThis (cmpState.salaries 0) = true
      ∧ cmpState.aclUser (cmpState.salaries 0) 0 = true)
    ∧ (cmpState.aclThis (cmpState.comparisonResults 0 1) = true
      ∧ cmpState.aclUser (cmpState.comparisonResults 0 1) 0 = true
      ∧ cmpState.aclUser (cmpState.comparisonResults 0 1) 1 = true)
    ∧ (applyOp (.update 0) cmpState).aclUser (cmpState.comparisonResults 0 1) 1 = true :=
  ⟨(grants_cover_participants_and_are_additive
      [.submit 0, .submit 1, .submit 2, .compare 0 1]).1.1 0 (by decide),
   (grants_cover_participants_and_are_additive
      [.submit 0, .submit 1, .submit 2, .compare 0 1]).1.2 0 1 (by decide),
   (grants_cover_participants_and_are_additive []).2.1 (.update 0) cmpState
      (cmpState.comparisonResults 0 1) 1 (by decide)⟩

end SalaryCompare
